import Mathlib

/-!
# Verification of the News-Article-Summarizer pipeline (src/NAS.py)

Shallow embedding of the text-processing core of `src/NAS.py`:

* Python string primitives (`str.split()`, `str.lower()`, `str.strip()`,
  `" ".join`, the `in` substring test) are modelled at the character-list
  level so that everything evaluates inside the kernel;
* `get_summarizer` (lines 19-27) maps the summary-length target to a model
  identifier or raises `ValueError`, modelled with `Except`;
* `safe_generate_summary` (lines 29-54) selects the per-chunk word limit,
  splits the text into word chunks, invokes the summarization model on each
  chunk, and space-joins the stripped partial summaries.  The external model
  is abstracted as an oracle `SummarizerCall → String` recording exactly the
  arguments the source passes (`chunk`, `max_length`, `min_length`,
  `do_sample`);
* `extract_text_from_url` (lines 10-13) with the HTTP fetch and HTML parse
  abstracted to the list of paragraph texts, and the generate-button URL
  branch of the event handler (lines 141-157).
-/

/-- Python `str.lower()` restricted to the character map: the model names in
this file are ASCII, where `Char.toLower` agrees with Python. -/
def pyLower (s : String) : String := String.mk (s.data.map Char.toLower)

/-- Contiguous-sublist test on character lists: `listContainsSub n h` is true
iff `n` occurs as a contiguous run inside `h` (Python's `n in h`). -/
def listContainsSub (needle : List Char) : List Char → Bool
  | [] => needle.isEmpty
  | c :: t => needle.isPrefixOf (c :: t) || listContainsSub needle t

/-- Python's substring test `needle in hay`. -/
def pyIn (needle hay : String) : Bool := listContainsSub needle.data hay.data

/-- Worker for Python `str.split()`: walks the characters keeping the current
word reversed in `acc`; whitespace closes the current word (if any), other
characters extend it. -/
def wordsAux (acc : List Char) : List Char → List (List Char)
  | [] => if acc = [] then [] else [acc.reverse]
  | c :: cs =>
    if c.isWhitespace then
      if acc = [] then wordsAux [] cs else acc.reverse :: wordsAux [] cs
    else wordsAux (c :: acc) cs

/-- Python `text.split()` (line 38): split on runs of whitespace, returning
the (non-empty) words in order; no empty strings are produced. -/
def pySplit (s : String) : List String := (wordsAux [] s.data).map String.mk

/-- Python `" ".join(l)` (lines 41 and 54): the elements in order with a
single space between consecutive elements. -/
def joinSpace : List String → String
  | [] => ""
  | [s] => s
  | s :: rest => s ++ " " ++ joinSpace rest

/-- Python `s.strip()` (line 52): remove leading and trailing whitespace. -/
def pyStrip (s : String) : String :=
  String.mk (((s.data.dropWhile Char.isWhitespace).reverse.dropWhile
    Char.isWhitespace).reverse)

/-- The slice loop of lines 40-42 (`for i in range(0, len(words), k)` taking
`words[i:i+k]`), made structural with a fuel argument: each iteration on a
non-empty list consumes at least one word when `0 < k`, so fuel equal to the
list length (as supplied by `chunkWords`) is never exhausted. -/
def chunkWordsFuel (k : Nat) : Nat → List String → List (List String)
  | 0, _ => []
  | _ + 1, [] => []
  | fuel + 1, w :: ws => (w :: ws).take k :: chunkWordsFuel k fuel ((w :: ws).drop k)

/-- The chunking step of `safe_generate_summary` (lines 40-42) on an already
split word list: successive slices of at most `k` words, in order.  The source
only runs it with `k = 700` or `k = 8000`; for `k = 0` Python's `range` would
raise, and this model returns a value that no claim depends on. -/
def chunkWords (k : Nat) (ws : List String) : List (List String) :=
  chunkWordsFuel k ws.length ws

/-- The summarization pipeline object returned by `get_summarizer`; only its
`model.name_or_path` is consulted by `safe_generate_summary`. -/
structure SummarizerModel where
  name_or_path : String
deriving DecidableEq, Repr

/-- `get_summarizer` (lines 19-27): the closed target-to-model mapping;
any other target raises `ValueError("Invalid summary length.")`. -/
def get_summarizer (length : Nat) : Except String SummarizerModel :=
  if length = 60 then .ok ⟨"google/flan-t5-base"⟩
  else if length = 150 then .ok ⟨"google/pegasus-cnn_dailymail"⟩
  else if length = 500 then .ok ⟨"pszemraj/led-large-book-summary"⟩
  else .error "Invalid summary length."

/-- Lines 33-36: the per-chunk word limit is 8000 when the string `"long-t5"`
occurs in the lowercased model name, and 700 otherwise. -/
def max_input_words (summarizer : SummarizerModel) : Nat :=
  if pyIn "long-t5" (pyLower summarizer.name_or_path) then 8000 else 700

/-- One invocation of the summarization capability: the arguments passed at
lines 46-50 (`summarizer(chunk, max_length=…, min_length=…, do_sample=…)`). -/
structure SummarizerCall where
  chunk : String
  max_length : Nat
  min_length : Nat
  do_sample : Bool
deriving DecidableEq, Repr

/-- `int(length * 0.8)` of line 49.  At the targets the UI offers (60, 150,
500) the IEEE-double product `length * 0.8` rounds to exactly 48.0, 120.0 and
400.0, so `int` truncation agrees with the exact floor `4 * length / 5`. -/
def int_length_times_08 (length : Nat) : Nat := 4 * length / 5

/-- `safe_generate_summary` (lines 29-54).  The external summarization model
is the `oracle` argument: `oracle call` stands for
`summarizer(call.chunk, …)[0]["summary_text"]`.  A `ValueError` from
`get_summarizer` propagates as `Except.error`. -/
def safe_generate_summary (oracle : SummarizerCall → String) (text : String)
    (length : Nat) : Except String String :=
  match get_summarizer length with
  | .error e => .error e
  | .ok summarizer =>
    let words := pySplit text
    let chunks := (chunkWords (max_input_words summarizer) words).map joinSpace
    let summaries := chunks.map (fun chunk =>
      pyStrip (oracle { chunk := chunk, max_length := length,
                        min_length := max 20 (int_length_times_08 length),
                        do_sample := false }))
  .ok (joinSpace summaries)

/-- The list of summarization invocations `safe_generate_summary` makes for a
given text and target: one call per chunk, in chunk order, with the argument
values of lines 46-50. -/
def summarizer_calls (text : String) (length : Nat) :
    Except String (List SummarizerCall) :=
  match get_summarizer length with
  | .error e => .error e
  | .ok summarizer =>
    let chunks := (chunkWords (max_input_words summarizer) (pySplit text)).map
      joinSpace
    .ok (chunks.map (fun chunk =>
      { chunk := chunk, max_length := length,
        min_length := max 20 (int_length_times_08 length), do_sample := false }))

/-- The per-chunk model outputs (`summary.strip()` not yet applied): the list
of `summarizer(chunk, …)[0]["summary_text"]` values in chunk order. -/
def partial_summaries (oracle : SummarizerCall → String) (text : String)
    (length : Nat) : Except String (List String) :=
  match get_summarizer length with
  | .error e => .error e
  | .ok summarizer =>
    let chunks := (chunkWords (max_input_words summarizer) (pySplit text)).map
      joinSpace
    .ok (chunks.map (fun chunk =>
      oracle { chunk := chunk, max_length := length,
               min_length := max 20 (int_length_times_08 length),
               do_sample := false }))

/-- `extract_text_from_url` (lines 10-13) with the HTTP fetch and HTML parse
abstracted: `paragraphs` is the list of `p.get_text()` values for the `<p>`
elements of the fetched page, and the result space-joins them.  A page with
zero paragraph elements yields `paragraphs = []`. -/
def extract_text_from_url (paragraphs : List String) : String :=
  joinSpace paragraphs

/-- The generate-button URL branch (lines 144-146 and 152-157): when the url
field is non-empty the handler sets `text` from `extract_text_from_url` and
immediately calls `safe_generate_summary`; the extracted text itself is never
checked.  An empty url field hits the `st.error`/`st.stop` branch, modelled
as an error. -/
def url_generate_flow (oracle : SummarizerCall → String) (url : String)
    (paragraphs : List String) (length : Nat) : Except String String :=
  if url = "" then .error "Please provide a valid input."
  else safe_generate_summary oracle (extract_text_from_url paragraphs) length

/-! ## Chunking lemmas -/

theorem chunkWordsFuel_flatten (k : Nat) (hk : 0 < k) :
    ∀ (fuel : Nat) (ws : List String), ws.length ≤ fuel →
      (chunkWordsFuel k fuel ws).flatten = ws := by
  intro fuel
  induction fuel with
  | zero =>
    intro ws hw
    have : ws = [] := List.eq_nil_of_length_eq_zero (Nat.le_zero.mp hw)
    subst this
    simp [chunkWordsFuel]
  | succ n ih =>
    intro ws hw
    cases ws with
    | nil => simp [chunkWordsFuel]
    | cons w t =>
      simp only [chunkWordsFuel, List.flatten_cons]
      rw [ih]
      · exact List.take_append_drop k (w :: t)
      · rw [List.length_drop]
        simp only [List.length_cons] at hw ⊢
        omega

theorem chunkWordsFuel_length (k : Nat) (hk : 0 < k) :
    ∀ (fuel : Nat) (ws : List String), ws.length ≤ fuel →
      (chunkWordsFuel k fuel ws).length = (ws.length + k - 1) / k := by
  intro fuel
  induction fuel with
  | zero =>
    intro ws hw
    have : ws = [] := List.eq_nil_of_length_eq_zero (Nat.le_zero.mp hw)
    subst this
    simp [chunkWordsFuel, Nat.div_eq_of_lt (show k - 1 < k by omega)]
  | succ n ih =>
    intro ws hw
    cases ws with
    | nil => simp [chunkWordsFuel, Nat.div_eq_of_lt (show k - 1 < k by omega)]
    | cons w t =>
      simp only [chunkWordsFuel, List.length_cons]
      rw [ih]
      · rw [List.length_drop]
        simp only [List.length_cons]
        have hm : t.length + 1 + k - 1 = (t.length + 1 - 1) + k := by omega
        rw [hm, Nat.add_div_right _ hk]
        rcases le_or_lt (t.length + 1) k with h | h
        · have h1 : t.length + 1 - k = 0 := by omega
          rw [h1]
          rw [Nat.div_eq_of_lt (show 0 + k - 1 < k by omega),
            Nat.div_eq_of_lt (show t.length + 1 - 1 < k by omega)]
        · have h2 : t.length + 1 - k + k - 1 = t.length + 1 - 1 := by omega
          rw [h2]
      · rw [List.length_drop]
        simp only [List.length_cons] at hw ⊢
        omega

theorem chunkWordsFuel_sizes (k : Nat) :
    ∀ (fuel : Nat) (ws : List String), ∀ c ∈ chunkWordsFuel k fuel ws,
      c.length ≤ k := by
  intro fuel
  induction fuel with
  | zero => intro ws c hc; simp [chunkWordsFuel] at hc
  | succ n ih =>
    intro ws c hc
    cases ws with
    | nil => simp [chunkWordsFuel] at hc
    | cons w t =>
      simp only [chunkWordsFuel, List.mem_cons] at hc
      rcases hc with hc | hc
      · subst hc
        rw [List.length_take]
        omega
      · exact ih _ c hc

theorem chunkWordsFuel_ne_nil (k : Nat) (hk : 0 < k) :
    ∀ (fuel : Nat) (ws : List String), ∀ c ∈ chunkWordsFuel k fuel ws,
      c ≠ [] := by
  intro fuel
  induction fuel with
  | zero => intro ws c hc; simp [chunkWordsFuel] at hc
  | succ n ih =>
    intro ws c hc
    cases ws with
    | nil => simp [chunkWordsFuel] at hc
    | cons w t =>
      simp only [chunkWordsFuel, List.mem_cons] at hc
      rcases hc with hc | hc
      · subst hc
        cases k with
        | zero => omega
        | succ m => simp [List.take_succ_cons]
      · exact ih _ c hc

theorem chunkWords_flatten (k : Nat) (hk : 0 < k) (ws : List String) :
    (chunkWords k ws).flatten = ws :=
  chunkWordsFuel_flatten k hk ws.length ws le_rfl

theorem chunkWords_length (k : Nat) (hk : 0 < k) (ws : List String) :
    (chunkWords k ws).length = (ws.length + k - 1) / k :=
  chunkWordsFuel_length k hk ws.length ws le_rfl

theorem chunkWords_sizes (k : Nat) (ws : List String) :
    ∀ c ∈ chunkWords k ws, c.length ≤ k :=
  chunkWordsFuel_sizes k ws.length ws

theorem chunkWords_ne_nil_mem (k : Nat) (hk : 0 < k) (ws : List String) :
    ∀ c ∈ chunkWords k ws, c ≠ [] :=
  chunkWordsFuel_ne_nil k hk ws.length ws

theorem chunkWords_cons_ne_nil (k : Nat) (w : String) (t : List String) :
    chunkWords k (w :: t) ≠ [] := by
  simp [chunkWords, chunkWordsFuel]

theorem chunkWordsFuel_congr (k : Nat) (hk : 0 < k) :
    ∀ (fuel fuel' : Nat) (ws : List String), ws.length ≤ fuel → ws.length ≤ fuel' →
      chunkWordsFuel k fuel ws = chunkWordsFuel k fuel' ws := by
  intro fuel
  induction fuel with
  | zero =>
    intro fuel' ws hw _
    have : ws = [] := List.eq_nil_of_length_eq_zero (Nat.le_zero.mp hw)
    subst this
    cases fuel' <;> rfl
  | succ n ih =>
    intro fuel' ws hw hw'
    cases ws with
    | nil => cases fuel' <;> rfl
    | cons w t =>
      cases fuel' with
      | zero => simp at hw'
      | succ m =>
        simp only [chunkWordsFuel]
        congr 1
        apply ih
        · rw [List.length_drop]
          simp only [List.length_cons] at hw ⊢
          omega
        · rw [List.length_drop]
          simp only [List.length_cons] at hw' ⊢
          omega

theorem chunkWords_step (k : Nat) (hk : 0 < k) (ws : List String) (h : ws ≠ []) :
    chunkWords k ws = ws.take k :: chunkWords k (ws.drop k) := by
  cases ws with
  | nil => exact absurd rfl h
  | cons w t =>
    show chunkWordsFuel k (w :: t).length (w :: t) = _
    simp only [List.length_cons, chunkWordsFuel]
    congr 1
    apply chunkWordsFuel_congr k hk
    · rw [List.length_drop]
      simp only [List.length_cons]
      omega
    · exact le_rfl

theorem chunkWords_mem_mem (k : Nat) (hk : 0 < k) (ws : List String)
    (c : List String) (hc : c ∈ chunkWords k ws) :
    ∀ x ∈ c, x ∈ ws := by
  intro x hx
  have : x ∈ (chunkWords k ws).flatten := List.mem_flatten.mpr ⟨c, hc, hx⟩
  rwa [chunkWords_flatten k hk ws] at this

/-! ## Word-splitting lemmas -/

theorem string_eq_empty_iff (s : String) : s = "" ↔ s.data = [] := by
  cases s with
  | mk d =>
    constructor
    · intro h
      rw [h]
    · intro h
      simp only at h
      rw [h]

theorem string_ne_empty_iff (s : String) : s ≠ "" ↔ s.data ≠ [] :=
  not_congr (string_eq_empty_iff s)

theorem wordsAux_mem (cs : List Char) :
    ∀ (acc : List Char), (∀ c ∈ acc, ¬ c.isWhitespace) →
      ∀ w ∈ wordsAux acc cs, w ≠ [] ∧ ∀ c ∈ w, ¬ c.isWhitespace := by
  induction cs with
  | nil =>
    intro acc hacc w hw
    by_cases h : acc = []
    · simp [wordsAux, h] at hw
    · simp only [wordsAux, if_neg h, List.mem_singleton] at hw
      subst hw
      refine ⟨by simpa using h, ?_⟩
      intro c hc
      exact hacc c (by simpa using hc)
  | cons c cs ih =>
    intro acc hacc w hw
    simp only [wordsAux] at hw
    by_cases hc : c.isWhitespace
    · rw [if_pos hc] at hw
      by_cases ha : acc = []
      · rw [if_pos ha] at hw
        exact ih [] (by simp) w hw
      · rw [if_neg ha] at hw
        rcases List.mem_cons.mp hw with hw | hw
        · subst hw
          refine ⟨by simpa using ha, ?_⟩
          intro x hx
          exact hacc x (by simpa using hx)
        · exact ih [] (by simp) w hw
    · rw [if_neg hc] at hw
      refine ih (c :: acc) ?_ w hw
      intro x hx
      rcases List.mem_cons.mp hx with hx | hx
      · subst hx; exact hc
      · exact hacc x hx

theorem wordsAux_acc_ne_nil (cs : List Char) :
    ∀ (a : Char) (acc : List Char), wordsAux (a :: acc) cs ≠ [] := by
  induction cs with
  | nil => intro a acc; simp [wordsAux]
  | cons c cs ih =>
    intro a acc
    simp only [wordsAux]
    by_cases hc : c.isWhitespace
    · simp [if_pos hc]
    · rw [if_neg hc]
      exact ih c (a :: acc)

theorem wordsAux_ne_nil_of_sub (cs : List Char)
    (h : ∃ c ∈ cs, ¬ c.isWhitespace) :
    ∀ acc, wordsAux acc cs ≠ [] := by
  induction cs with
  | nil => simp at h
  | cons c cs ih =>
    intro acc
    simp only [wordsAux]
    by_cases hc : c.isWhitespace
    · rw [if_pos hc]
      have h' : ∃ x ∈ cs, ¬ x.isWhitespace := by
        rcases h with ⟨x, hx, hxw⟩
        rcases List.mem_cons.mp hx with hx | hx
        · subst hx; exact absurd hc hxw
        · exact ⟨x, hx, hxw⟩
      by_cases ha : acc = []
      · rw [if_pos ha]; exact ih h' []
      · rw [if_neg ha]; simp
    · rw [if_neg hc]
      exact wordsAux_acc_ne_nil cs c acc

theorem wordsAux_all_ws (cs : List Char) (h : ∀ c ∈ cs, c.isWhitespace) :
    wordsAux [] cs = [] := by
  induction cs with
  | nil => simp [wordsAux]
  | cons c cs ih =>
    simp only [wordsAux, if_pos (h c (List.mem_cons_self c cs)), if_pos rfl]
    exact ih (fun x hx => h x (List.mem_cons_of_mem c hx))

theorem wordsAux_word_run (p : List Char) (hp : ∀ c ∈ p, ¬ c.isWhitespace) :
    ∀ (acc cs : List Char), wordsAux acc (p ++ cs) = wordsAux (p.reverse ++ acc) cs := by
  induction p with
  | nil => intro acc cs; simp
  | cons a p ih =>
    intro acc cs
    have ha : ¬ a.isWhitespace := hp a (List.mem_cons_self a p)
    simp only [List.cons_append, wordsAux, if_neg ha]
    have hgoal : wordsAux (a :: acc) (p ++ cs) = wordsAux ((a :: p).reverse ++ acc) cs := by
      rw [ih (fun c hc => hp c (List.mem_cons_of_mem a hc)) (a :: acc) cs]
      congr 1
      simp
    exact hgoal

/-- `" ".join` at the character level. -/
def joinChars : List (List Char) → List Char
  | [] => []
  | [p] => p
  | p :: rest => p ++ ' ' :: joinChars rest

theorem joinSpace_data : ∀ (l : List String),
    (joinSpace l).data = joinChars (l.map String.data) := by
  intro l
  match l with
  | [] => rfl
  | [s] => rfl
  | s :: r :: rest =>
    show (s ++ " " ++ joinSpace (r :: rest)).data = s.data ++ ' ' :: joinChars ((r :: rest).map String.data)
    rw [String.data_append, String.data_append, joinSpace_data (r :: rest)]
    have hsp : (" " : String).data = [' '] := rfl
    rw [hsp]
    simp [List.append_assoc]

theorem wordsAux_joinChars : ∀ (l : List (List Char)),
    (∀ p ∈ l, p ≠ [] ∧ ∀ c ∈ p, ¬ c.isWhitespace) →
    wordsAux [] (joinChars l) = l := by
  intro l
  match l with
  | [] => intro _; rfl
  | [p] =>
    intro h
    rcases h p (List.mem_singleton.mpr rfl) with ⟨hne, hsub⟩
    show wordsAux [] p = [p]
    have := wordsAux_word_run p hsub [] []
    rw [List.append_nil] at this
    rw [this]
    simp [wordsAux, hne]
  | p :: q :: rest =>
    intro h
    rcases h p (List.mem_cons_self p (q :: rest)) with ⟨hne, hsub⟩
    show wordsAux [] (p ++ ' ' :: joinChars (q :: rest)) = p :: q :: rest
    rw [wordsAux_word_run p hsub [] (' ' :: joinChars (q :: rest))]
    rw [List.append_nil]
    have hrev : p.reverse ≠ [] := by simpa using hne
    simp only [wordsAux, if_pos (by decide : (' ' : Char).isWhitespace = true), if_neg hrev]
    rw [wordsAux_joinChars (q :: rest) (fun x hx => h x (List.mem_cons_of_mem p hx))]
    simp

theorem pySplit_joinSpace (l : List String)
    (h : ∀ w ∈ l, w ≠ "" ∧ ∀ c ∈ w.data, ¬ c.isWhitespace) :
    pySplit (joinSpace l) = l := by
  unfold pySplit
  rw [joinSpace_data, wordsAux_joinChars]
  · rw [List.map_map]
    exact List.map_id'' (fun w => rfl) l
  · intro p hp
    rcases List.mem_map.mp hp with ⟨w, hw, rfl⟩
    rcases h w hw with ⟨hne, hsub⟩
    exact ⟨(string_ne_empty_iff w).mp hne, hsub⟩

theorem pySplit_words (s : String) :
    ∀ w ∈ pySplit s, w ≠ "" ∧ ∀ c ∈ w.data, ¬ c.isWhitespace := by
  intro w hw
  rcases List.mem_map.mp hw with ⟨p, hp, rfl⟩
  rcases wordsAux_mem s.data [] (by simp) p hp with ⟨hne, hsub⟩
  exact ⟨(string_ne_empty_iff _).mpr (by simpa using hne), by simpa using hsub⟩

/-! ## Pipeline unfolding helpers -/

theorem safe_generate_summary_ok (oracle : SummarizerCall → String)
    (text : String) (length : Nat) (summarizer : SummarizerModel)
    (hg : get_summarizer length = .ok summarizer) :
    safe_generate_summary oracle text length =
      .ok (joinSpace
        (((chunkWords (max_input_words summarizer) (pySplit text)).map joinSpace).map
          (fun chunk => pyStrip (oracle
            ⟨chunk, length, max 20 (int_length_times_08 length), false⟩)))) := by
  unfold safe_generate_summary
  rw [hg]

theorem safe_generate_summary_error (oracle : SummarizerCall → String)
    (text : String) (length : Nat) (e : String)
    (hg : get_summarizer length = .error e) :
    safe_generate_summary oracle text length = .error e := by
  unfold safe_generate_summary
  rw [hg]

theorem summarizer_calls_ok (text : String) (length : Nat)
    (summarizer : SummarizerModel) (hg : get_summarizer length = .ok summarizer) :
    summarizer_calls text length =
      .ok (((chunkWords (max_input_words summarizer) (pySplit text)).map joinSpace).map
        (fun chunk => ⟨chunk, length, max 20 (int_length_times_08 length), false⟩)) := by
  unfold summarizer_calls
  rw [hg]

theorem summarizer_calls_error (text : String) (length : Nat) (e : String)
    (hg : get_summarizer length = .error e) :
    summarizer_calls text length = .error e := by
  unfold summarizer_calls
  rw [hg]

theorem partial_summaries_ok (oracle : SummarizerCall → String) (text : String)
    (length : Nat) (summarizer : SummarizerModel)
    (hg : get_summarizer length = .ok summarizer) :
    partial_summaries oracle text length =
      .ok (((chunkWords (max_input_words summarizer) (pySplit text)).map joinSpace).map
        (fun chunk => oracle ⟨chunk, length, max 20 (int_length_times_08 length), false⟩)) := by
  unfold partial_summaries
  rw [hg]

theorem partial_summaries_error (oracle : SummarizerCall → String) (text : String)
    (length : Nat) (e : String) (hg : get_summarizer length = .error e) :
    partial_summaries oracle text length = .error e := by
  unfold partial_summaries
  rw [hg]

/-- Coherence of the two instrumented views: the recorded partial summaries
are exactly the oracle applied to the recorded calls. -/
theorem partial_summaries_eq_calls (oracle : SummarizerCall → String)
    (text : String) (length : Nat) :
    partial_summaries oracle text length =
      (summarizer_calls text length).map (List.map oracle) := by
  cases hg : get_summarizer length with
  | error e =>
    rw [partial_summaries_error oracle text length e hg,
      summarizer_calls_error text length e hg]
    rfl
  | ok summarizer =>
    rw [partial_summaries_ok oracle text length summarizer hg,
      summarizer_calls_ok text length summarizer hg]
    simp only [Except.map, List.map_map]
    rfl

theorem floor_four_fifths (l : Nat) :
    ⌊(4 / 5 : ℚ) * (l : ℚ)⌋₊ = 4 * l / 5 := by
  have h : (4 / 5 : ℚ) * (l : ℚ) = ((4 * l : ℕ) : ℚ) / ((5 : ℕ) : ℚ) := by
    push_cast
    ring
  rw [h, Nat.floor_div_eq_div]

theorem joinSpace_ne_empty : ∀ (l : List String), l ≠ [] →
    (∀ s ∈ l, s ≠ "") → joinSpace l ≠ "" := by
  intro l
  match l with
  | [] => intro h _; exact absurd rfl h
  | [s] => intro _ h; exact h s (List.mem_singleton.mpr rfl)
  | s :: r :: rest =>
    intro _ _
    rw [string_ne_empty_iff, joinSpace_data]
    simp [joinChars]

/-! ## Claims -/

/-- Claim C1: for any input text and any positive word limit, the chunking
step of `safe_generate_summary` is lossless over words: joining each chunk's
words in chunk order with single-space separators reproduces the
whitespace-normalized input text (the input split on whitespace and re-joined
with single spaces) exactly. -/
theorem C1_chunking_lossless (text : String) (k : Nat) (hk : 0 < k) :
    joinSpace ((chunkWords k (pySplit text)).flatten) = joinSpace (pySplit text) := by
  rw [chunkWords_flatten k hk]

theorem C1_chunking_lossless_witness :
    0 < 2 ∧ joinSpace ((chunkWords 2 (pySplit " one  two three ")).flatten)
      = joinSpace (pySplit " one  two three ") :=
  ⟨by decide, C1_chunking_lossless " one  two three " 2 (by decide)⟩

/-- Claim C2: for every input text and every positive per-chunk word limit
(in particular under both policy tiers, 8000 and 700), every chunk produced
by the chunking step of `safe_generate_summary` contains at most that limit's
number of whitespace-delimited words. -/
theorem C2_chunk_word_bound (text : String) (k : Nat) (hk : 0 < k) :
    ∀ chunk ∈ (chunkWords k (pySplit text)).map joinSpace,
      (pySplit chunk).length ≤ k := by
  intro chunk hc
  rcases List.mem_map.mp hc with ⟨wl, hwl, rfl⟩
  rw [pySplit_joinSpace wl (fun w hw =>
    pySplit_words text w (chunkWords_mem_mem k hk (pySplit text) wl hwl w hw))]
  exact chunkWords_sizes k (pySplit text) wl hwl

theorem C2_chunk_word_bound_witness :
    0 < 2 ∧ ∀ chunk ∈ (chunkWords 2 (pySplit "a b c d e")).map joinSpace,
      (pySplit chunk).length ≤ 2 :=
  ⟨by decide, C2_chunk_word_bound "a b c d e" 2 (by decide)⟩

/-- Claim C3: for every input text and positive limit `k`, the chunking step
produces exactly `⌈word_count / k⌉ = (word_count + k - 1) / k` chunks (so 0
chunks for empty text), and a 2000-word text at the standard-tier limit 700
gives exactly 3 chunks of sizes 700, 700 and 600, in that order. -/
theorem C3_chunk_count :
    (∀ (text : String) (k : Nat), 0 < k →
      (chunkWords k (pySplit text)).length = ((pySplit text).length + k - 1) / k) ∧
    (∀ ws : List String, ws.length = 2000 →
      (chunkWords 700 ws).map List.length = [700, 700, 600]) := by
  constructor
  · intro text k hk
    exact chunkWords_length k hk (pySplit text)
  · intro ws hws
    have h1 : ws ≠ [] := by
      intro h
      rw [h] at hws
      simp at hws
    have hd1 : (ws.drop 700).length = 1300 := by rw [List.length_drop, hws]
    have h2 : ws.drop 700 ≠ [] := by
      intro h
      rw [h] at hd1
      simp at hd1
    have hd2 : ((ws.drop 700).drop 700).length = 600 := by
      rw [List.length_drop, hd1]
    have h3 : (ws.drop 700).drop 700 ≠ [] := by
      intro h
      rw [h] at hd2
      simp at hd2
    have hd3 : (((ws.drop 700).drop 700).drop 700).length = 0 := by
      rw [List.length_drop, hd2]
    have h4 : ((ws.drop 700).drop 700).drop 700 = [] :=
      List.eq_nil_of_length_eq_zero hd3
    have h0 : chunkWords 700 ([] : List String) = [] := rfl
    rw [chunkWords_step 700 (by norm_num) ws h1,
      chunkWords_step 700 (by norm_num) _ h2,
      chunkWords_step 700 (by norm_num) _ h3, h4, h0]
    simp [List.length_take, hws, hd1, hd2]

theorem C3_chunk_count_witness :
    (0 < 3 ∧ (chunkWords 3 (pySplit "a b c d")).length
      = ((pySplit "a b c d").length + 3 - 1) / 3) ∧
    ((List.replicate 2000 "w").length = 2000 ∧
      (chunkWords 700 (List.replicate 2000 "w")).map List.length
        = [700, 700, 600]) :=
  ⟨⟨by decide, C3_chunk_count.1 "a b c d" 3 (by decide)⟩,
    ⟨by rw [List.length_replicate],
      C3_chunk_count.2 (List.replicate 2000 "w") (by rw [List.length_replicate])⟩⟩

/-- Claim C4 is refuted by the code (code bug): the target 500 resolves to
the model `"pszemraj/led-large-book-summary"`, whose lowercased name does not
contain `"long-t5"`, so `safe_generate_summary` applies the 700-word
per-chunk limit to it — the 8000-word branch of lines 33-36 is dead for every
model `get_summarizer` can return, although the code's own comment and the
UI's "LongT5 Article Digest" option show the large-context model was meant to
get the much larger limit. -/
theorem C4_large_context_limit_is_700 :
    get_summarizer 500 = .ok ⟨"pszemraj/led-large-book-summary"⟩ ∧
    max_input_words ⟨"pszemraj/led-large-book-summary"⟩ = 700 ∧
    max_input_words ⟨"google/flan-t5-base"⟩ = 700 ∧
    max_input_words ⟨"google/pegasus-cnn_dailymail"⟩ = 700 :=
  ⟨rfl, by decide, by decide, by decide⟩

/-- Claim C5: every summarization invocation `safe_generate_summary` makes
uses a maximum output length equal to the numeric target, a minimum output
length equal to the floor of 80% of the target with an absolute floor of 20,
and sampling disabled; at target 60 this is `max_length = 60` and
`min_length = 48` (see the witness). -/
theorem C5_call_arguments (text : String) (length : Nat)
    (calls : List SummarizerCall)
    (h : summarizer_calls text length = .ok calls) :
    ∀ call ∈ calls,
      call.max_length = length ∧
      call.min_length = max 20 ⌊(4 / 5 : ℚ) * (length : ℚ)⌋₊ ∧
      call.do_sample = false := by
  cases hg : get_summarizer length with
  | error e =>
    rw [summarizer_calls_error text length e hg] at h
    exact absurd h (by simp)
  | ok summarizer =>
    rw [summarizer_calls_ok text length summarizer hg] at h
    simp only [Except.ok.injEq] at h
    subst h
    intro call hc
    rcases List.mem_map.mp hc with ⟨chunk, _, rfl⟩
    refine ⟨rfl, ?_, rfl⟩
    rw [floor_four_fifths]
    rfl

theorem C5_call_arguments_witness :
    summarizer_calls "Hello world." 60 = .ok [⟨"Hello world.", 60, 48, false⟩] ∧
    ∀ call ∈ [(⟨"Hello world.", 60, 48, false⟩ : SummarizerCall)],
      call.max_length = 60 ∧
      call.min_length = max 20 ⌊(4 / 5 : ℚ) * ((60 : Nat) : ℚ)⌋₊ ∧
      call.do_sample = false :=
  ⟨rfl, C5_call_arguments "Hello world." 60 [⟨"Hello world.", 60, 48, false⟩] rfl⟩

/-- Claim C6: the final summary returned by `safe_generate_summary` is the
per-chunk partial summaries, each individually stripped of leading and
trailing whitespace, joined with single spaces in chunk order. -/
theorem C6_final_summary_join (oracle : SummarizerCall → String)
    (text : String) (length : Nat) (ps : List String)
    (h : partial_summaries oracle text length = .ok ps) :
    safe_generate_summary oracle text length = .ok (joinSpace (ps.map pyStrip)) := by
  cases hg : get_summarizer length with
  | error e =>
    rw [partial_summaries_error oracle text length e hg] at h
    exact absurd h (by simp)
  | ok summarizer =>
    rw [partial_summaries_ok oracle text length summarizer hg] at h
    simp only [Except.ok.injEq] at h
    subst h
    rw [safe_generate_summary_ok oracle text length summarizer hg]
    simp only [List.map_map]
    rfl

theorem C6_final_summary_join_witness :
    partial_summaries (fun _ => "  a partial summary  ") "Hello world." 60
      = .ok ["  a partial summary  "] ∧
    safe_generate_summary (fun _ => "  a partial summary  ") "Hello world." 60
      = .ok (joinSpace (["  a partial summary  "].map pyStrip)) :=
  ⟨rfl, C6_final_summary_join (fun _ => "  a partial summary  ") "Hello world." 60
    ["  a partial summary  "] rfl⟩

/-- Claim C7 as stated is false at the code: a non-empty but whitespace-only
extracted text yields the empty final summary even when every capability
invocation returns non-empty text, and an invocation returning the empty
string yields the empty final summary on ordinary non-empty text. -/
theorem C7_counterexample :
    safe_generate_summary (fun _ => "A summary.") " " 60 = .ok "" ∧
    safe_generate_summary (fun _ => "") "hello" 60 = .ok "" :=
  ⟨rfl, rfl⟩

/-- Claim C7 amended: for every extracted text containing at least one
non-whitespace character and every valid target, if each capability
invocation returns a string that is non-empty after stripping, then
`safe_generate_summary` returns a non-empty final summary. -/
theorem C7_nonempty_summary (oracle : SummarizerCall → String) (text : String)
    (length : Nat)
    (htext : ∃ c ∈ text.data, ¬ c.isWhitespace)
    (hlen : length = 60 ∨ length = 150 ∨ length = 500)
    (horacle : ∀ call, pyStrip (oracle call) ≠ "") :
    ∃ out, safe_generate_summary oracle text length = .ok out ∧ out ≠ "" := by
  obtain ⟨s, hg⟩ : ∃ s, get_summarizer length = .ok s := by
    rcases hlen with rfl | rfl | rfl <;> exact ⟨_, rfl⟩
  refine ⟨_, safe_generate_summary_ok oracle text length s hg, ?_⟩
  apply joinSpace_ne_empty
  · have hws : wordsAux [] text.data ≠ [] :=
      wordsAux_ne_nil_of_sub text.data htext []
    have hsplit : pySplit text ≠ [] := by
      unfold pySplit
      simpa using hws
    rcases hlist : pySplit text with _ | ⟨w, t⟩
    · exact absurd hlist hsplit
    · simp only [ne_eq, List.map_eq_nil_iff]
      exact chunkWords_cons_ne_nil (max_input_words s) w t
  · intro x hx
    rcases List.mem_map.mp hx with ⟨chunk, _, rfl⟩
    exact horacle _

theorem C7_nonempty_summary_witness :
    ∃ out, safe_generate_summary (fun _ => "A summary.") "Hello world." 60
      = .ok out ∧ out ≠ "" :=
  C7_nonempty_summary (fun _ => "A summary.") "Hello world." 60
    (by decide) (Or.inl rfl)
    (fun _ => show pyStrip "A summary." ≠ "" from by decide)

/-- Claim C8: for every target outside the closed enumeration {60, 150, 500},
`get_summarizer` fails with the `ValueError("Invalid summary length.")`
configuration violation rather than falling back to any capability. -/
theorem C8_invalid_target_errors (length : Nat)
    (h60 : length ≠ 60) (h150 : length ≠ 150) (h500 : length ≠ 500) :
    get_summarizer length = .error "Invalid summary length." := by
  unfold get_summarizer
  rw [if_neg h60, if_neg h150, if_neg h500]

theorem C8_invalid_target_errors_witness :
    (99 : Nat) ≠ 60 ∧ (99 : Nat) ≠ 150 ∧ (99 : Nat) ≠ 500 ∧
    get_summarizer 99 = .error "Invalid summary length." :=
  ⟨by decide, by decide, by decide,
    C8_invalid_target_errors 99 (by decide) (by decide) (by decide)⟩

/-- Claim C9 as stated is false at the code: with zero paragraph elements,
`extract_text_from_url` returns the empty string — no `ExtractionFailure` is
raised — and the generate handler proceeds to summarization, which returns an
empty summary instead of failing. -/
theorem C9_counterexample :
    extract_text_from_url [] = "" ∧
    url_generate_flow (fun _ => "A summary.") "https://example.com/article" []
      60 = .ok "" :=
  ⟨rfl, rfl⟩

/-- Claim C9 amended: when the fetched page has zero paragraph elements,
extraction returns the empty string without failing, and the handler calls
`safe_generate_summary` on that empty text, which makes zero capability
invocations and returns the empty summary. -/
theorem C9_empty_paragraphs (oracle : SummarizerCall → String) (url : String)
    (length : Nat) (hurl : url ≠ "")
    (hlen : length = 60 ∨ length = 150 ∨ length = 500) :
    extract_text_from_url [] = "" ∧
    url_generate_flow oracle url [] length
      = safe_generate_summary oracle "" length ∧
    summarizer_calls "" length = .ok [] ∧
    safe_generate_summary oracle "" length = .ok "" := by
  refine ⟨rfl, ?_, ?_, ?_⟩
  · unfold url_generate_flow
    rw [if_neg hurl]
    rfl
  · rcases hlen with rfl | rfl | rfl <;> rfl
  · rcases hlen with rfl | rfl | rfl <;> rfl

theorem C9_empty_paragraphs_witness :
    extract_text_from_url [] = "" ∧
    url_generate_flow (fun _ => "A summary.") "https://example.com/article" []
      60 = safe_generate_summary (fun _ => "A summary.") "" 60 ∧
    summarizer_calls "" 60 = .ok [] ∧
    safe_generate_summary (fun _ => "A summary.") "" 60 = .ok "" :=
  C9_empty_paragraphs (fun _ => "A summary.") "https://example.com/article" 60
    (by decide) (Or.inl rfl)

/-- Claim C10: for every input text that is empty or consists only of
whitespace and every valid target, `safe_generate_summary` produces zero
chunks, makes zero summarization invocations, raises no error of its own,
and returns the empty string. -/
theorem C10_whitespace_text (oracle : SummarizerCall → String) (text : String)
    (length : Nat)
    (htext : ∀ c ∈ text.data, c.isWhitespace)
    (hlen : length = 60 ∨ length = 150 ∨ length = 500) :
    summarizer_calls text length = .ok [] ∧
    safe_generate_summary oracle text length = .ok "" := by
  have hsplit : pySplit text = [] := by
    unfold pySplit
    rw [wordsAux_all_ws text.data htext]
    rfl
  obtain ⟨s, hg⟩ : ∃ s, get_summarizer length = .ok s := by
    rcases hlen with rfl | rfl | rfl <;> exact ⟨_, rfl⟩
  constructor
  · rw [summarizer_calls_ok text length s hg, hsplit]
    rfl
  · rw [safe_generate_summary_ok oracle text length s hg, hsplit]
    rfl

theorem C10_whitespace_text_witness :
    summarizer_calls "  \t " 60 = .ok [] ∧
    safe_generate_summary (fun _ => "A summary.") "  \t " 60 = .ok "" :=
  C10_whitespace_text (fun _ => "A summary.") "  \t " 60 (by decide) (Or.inl rfl)
